import Mathlib

/-!
Verification of the LogAnalyzer core pipeline.

Shallow embedding of the analysis pipeline of `src/script.js`
(class `LogAnalyzer`): block splitting, IP classification, user
behavior detection and breach verdict.  Strings are modelled as
`List Char`; JavaScript numbers appearing in the interval heuristic
are modelled as exact rationals (`ℚ`); the implementation-defined
`new Date(...)` string-to-time parsing is kept abstract as a
parameter `dparse : String → Int` (milliseconds), so every theorem
about the pipeline holds for every date-parsing policy.
-/

namespace LogAnalyzer

/-- The JavaScript `\s` character class (also used by `String.prototype.trim`):
tab, LF, VT, FF, CR, space, NBSP and the Unicode space separators. -/
def isJsWS (c : Char) : Bool :=
  c = ' ' || c = '\t' || c = '\n' || c = '\r' || c.val = 0x0b || c.val = 0x0c ||
  c.val = 0xa0 || c.val = 0x1680 || (0x2000 ≤ c.val && c.val ≤ 0x200a) ||
  c.val = 0x2028 || c.val = 0x2029 || c.val = 0x202f || c.val = 0x205f ||
  c.val = 0x3000 || c.val = 0xfeff

/-- JavaScript `String.prototype.trim`: strip leading and trailing whitespace. -/
def trimChars (s : List Char) : List Char :=
  ((s.dropWhile isJsWS).reverse.dropWhile isJsWS).reverse

/-- Index of the last `'\n'` in a list, if any. -/
def lastNlIdx : List Char → Option Nat
  | [] => none
  | c :: rest =>
    match lastNlIdx rest with
    | some j => some (j + 1)
    | none => if c = '\n' then some 0 else none

/-- Leftmost-greedy match of the block-separator regex `\n\s*\n`
(src/script.js line 88) at the head of `s`: returns the length of the
match.  The backtracking-greedy `\s*` means the match runs from the
initial `'\n'` to the last `'\n'` inside the maximal whitespace run
that follows it. -/
def matchSep : List Char → Option Nat
  | '\n' :: rest =>
    match lastNlIdx (rest.takeWhile isJsWS) with
    | some j => some (j + 2)
    | none => none
  | _ => none

/-- Says whether the separator regex `\n\s*\n` matches somewhere in `s`. -/
def hasSep : List Char → Bool
  | [] => false
  | c :: rest => (matchSep (c :: rest)).isSome || hasSep rest

/-- Scanning worker for `String.prototype.split(/\n\s*\n/)`: `acc` holds the
current piece reversed; at each position the separator is tried, and on a
match the piece is emitted and the separator skipped.  `fuel` only bounds the
recursion; `rawSplit` supplies enough for the whole input. -/
def rawSplitAux : Nat → List Char → List Char → List (List Char)
  | 0, acc, _ => [acc.reverse]
  | fuel + 1, acc, s =>
    match matchSep s with
    | some len => acc.reverse :: rawSplitAux fuel [] (s.drop len)
    | none =>
      match s with
      | [] => [acc.reverse]
      | c :: rest => rawSplitAux fuel (c :: acc) rest

/-- JavaScript `content.split(/\n\s*\n/)` (src/script.js line 88). -/
def rawSplit (s : List Char) : List (List Char) :=
  rawSplitAux s.length [] s

/-- Source function `splitIntoBlocks` (src/script.js lines 87–91): split on blank-line
separators, trim each piece, drop empty pieces. -/
def splitIntoBlocks (content : List Char) : List (List Char) :=
  ((rawSplit content).map trimChars).filter (fun b => decide (0 < b.length))

/-- JavaScript `block.split('\n')`: split on every `'\n'`, keeping empty
pieces (`''.split('\n')` is `['']`). -/
def splitNl : List Char → List (List Char)
  | [] => [[]]
  | '\n' :: rest => [] :: splitNl rest
  | c :: rest =>
    match splitNl rest with
    | [] => [[c]]
    | l :: ls => (c :: l) :: ls

/-- One entry of the IP analysis (the object pushed at
src/script.js lines 107–111). -/
structure IPRecord where
  ip : List Char
  isInternal : Bool
  requests : List (List Char)
deriving DecidableEq, Repr

/-- Anchored match of `/^(\d{1,3}\.\d{1,3}\.\d{1,3}\.\d{1,3})/`
(src/script.js line 94) against the start of `line`, returning the captured
address.  For the first three octets the greedy `\d{1,3}` can only succeed
when the maximal digit run has length 1–3 and is followed by `'.'`; the last
octet greedily takes up to three digits of a nonempty run. -/
def matchIP (line : List Char) : Option (List Char) :=
  let d1 := line.takeWhile Char.isDigit
  if 1 ≤ d1.length ∧ d1.length ≤ 3 then
    match line.dropWhile Char.isDigit with
    | '.' :: r1 =>
      let d2 := r1.takeWhile Char.isDigit
      if 1 ≤ d2.length ∧ d2.length ≤ 3 then
        match r1.dropWhile Char.isDigit with
        | '.' :: r2 =>
          let d3 := r2.takeWhile Char.isDigit
          if 1 ≤ d3.length ∧ d3.length ≤ 3 then
            match r2.dropWhile Char.isDigit with
            | '.' :: r3 =>
              let d4 := r3.takeWhile Char.isDigit
              if 1 ≤ d4.length then
                some (d1 ++ '.' :: d2 ++ '.' :: d3 ++ '.' :: d4.take 3)
              else none
            | _ => none
          else none
        | _ => none
      else none
    | _ => none
  else none

/-- The record a block would contribute (src/script.js lines 98–111): match
the IP pattern on the block's first line; on success classify by the literal
`startsWith('10.')` test and keep the remaining non-blank lines. -/
def ipRecordOfBlock (b : List Char) : Option IPRecord :=
  let lines := splitNl b
  match matchIP (lines.headD []) with
  | none => none
  | some addr =>
    some { ip := addr,
           isInternal := "10.".data.isPrefixOf addr,
           requests := (lines.drop 1).filter (fun l => decide (0 < (trimChars l).length)) }

/-- Loop body of `analyzeIPs` (src/script.js lines 97–114): a block's record
is appended only when no already-collected record has the same address. -/
def analyzeIPsAux (acc : List IPRecord) : List (List Char) → List IPRecord
  | [] => acc
  | b :: rest =>
    match ipRecordOfBlock b with
    | none => analyzeIPsAux acc rest
    | some r =>
      if acc.any (fun x => x.ip == r.ip) then analyzeIPsAux acc rest
      else analyzeIPsAux (acc ++ [r]) rest

/-- Source function `analyzeIPs` (src/script.js lines 93–117). -/
def analyzeIPs (blocks : List (List Char)) : List IPRecord :=
  analyzeIPsAux [] blocks

/-- Spec-side characterization for the dedup policy, following the spec's
words in §3 ("first occurrence wins; later blocks with the same leading
address do not create duplicates but also do not merge their request
lines"): the record retained for an address is the one created from the
first block whose leading address matches.  To be compared with the
source-side `analyzeIPs`. -/
def firstIPRecordFor (blocks : List (List Char)) (a : List Char) : Option IPRecord :=
  match blocks with
  | [] => none
  | b :: rest =>
    match ipRecordOfBlock b with
    | some r => if r.ip = a then some r else firstIPRecordFor rest a
    | none => firstIPRecordFor rest a

/-- Consume exactly `n` digits, returning the rest of the input. -/
def dropDigitsN : Nat → List Char → Option (List Char)
  | 0, s => some s
  | n + 1, c :: s => if c.isDigit then dropDigitsN n s else none
  | _ + 1, [] => none

/-- Consume one expected literal character. -/
def dropLit (ch : Char) : List Char → Option (List Char)
  | c :: s => if c = ch then some s else none
  | [] => none

/-- Consume `\d{2}:\d{2}:\d{2}` (8 characters). -/
def dropHms (s : List Char) : Option (List Char) := do
  let s ← dropDigitsN 2 s
  let s ← dropLit ':' s
  let s ← dropDigitsN 2 s
  let s ← dropLit ':' s
  dropDigitsN 2 s

/-- Consume `\d{4}-\d{2}-\d{2} \d{2}:\d{2}:\d{2}` (19 characters). -/
def dropYmdHms (s : List Char) : Option (List Char) := do
  let s ← dropDigitsN 4 s
  let s ← dropLit '-' s
  let s ← dropDigitsN 2 s
  let s ← dropLit '-' s
  let s ← dropDigitsN 2 s
  let s ← dropLit ' ' s
  dropHms s

/-- Consume `\d{2}\/\d{2}\/\d{4} \d{2}:\d{2}:\d{2}` (19 characters). -/
def dropDmyHms (s : List Char) : Option (List Char) := do
  let s ← dropDigitsN 2 s
  let s ← dropLit '/' s
  let s ← dropDigitsN 2 s
  let s ← dropLit '/' s
  let s ← dropDigitsN 4 s
  let s ← dropLit ' ' s
  dropHms s

/-- Timestamp pattern 1 of `extractTimestamp` (src/script.js line 151),
`/\[(\d{4}-\d{2}-\d{2} \d{2}:\d{2}:\d{2})\]/`, tried at one position:
returns the captured group. -/
def tsPat1At : List Char → Option (List Char)
  | '[' :: rest => do
    let s ← dropYmdHms rest
    let _ ← dropLit ']' s
    some (rest.take 19)
  | _ => none

/-- Timestamp pattern 2 (src/script.js line 152), the bare
`\d{4}-\d{2}-\d{2} \d{2}:\d{2}:\d{2}`, tried at one position. -/
def tsPat2At (s : List Char) : Option (List Char) := do
  let _ ← dropYmdHms s
  some (s.take 19)

/-- Timestamp pattern 3 (src/script.js line 153),
`/\[(\d{2}\/\d{2}\/\d{4} \d{2}:\d{2}:\d{2})\]/`, tried at one position. -/
def tsPat3At : List Char → Option (List Char)
  | '[' :: rest => do
    let s ← dropDmyHms rest
    let _ ← dropLit ']' s
    some (rest.take 19)
  | _ => none

/-- Timestamp pattern 4 (src/script.js line 154), the bare
`\d{2}:\d{2}:\d{2}`, tried at one position. -/
def tsPat4At (s : List Char) : Option (List Char) := do
  let _ ← dropHms s
  some (s.take 8)

/-- Unanchored regex search: try the pattern at each position, leftmost
match wins. -/
def scanFor (p : List Char → Option (List Char)) : List Char → Option (List Char)
  | [] => none
  | c :: rest =>
    match p (c :: rest) with
    | some cap => some cap
    | none => scanFor p rest

/-- Source function `extractTimestamp` (src/script.js lines 148–165) up to the
implementation-defined `new Date(...)` conversion: the patterns are tried in
source order and the first capture anywhere in the line is returned. -/
def extractTimestampCap (line : List Char) : Option (List Char) :=
  match scanFor tsPat1At line with
  | some cap => some cap
  | none =>
    match scanFor tsPat2At line with
    | some cap => some cap
    | none =>
      match scanFor tsPat3At line with
      | some cap => some cap
      | none => scanFor tsPat4At line

/-- Match of `/user_id=([^&\s]+)/` (src/script.js line 121) at one position. -/
def userTokenAt : List Char → Option (List Char)
  | 'u' :: 's' :: 'e' :: 'r' :: '_' :: 'i' :: 'd' :: '=' :: rest =>
    let v := rest.takeWhile (fun c => !(c = '&') && !isJsWS c)
    if 0 < v.length then some v else none
  | _ => none

/-- Unanchored search for the `user_id=` token in a line. -/
def userIdOfLine : List Char → Option (List Char)
  | [] => none
  | c :: rest =>
    match userTokenAt (c :: rest) with
    | some v => some v
    | none => userIdOfLine rest

/-- One collected request of a user group (the object pushed at
src/script.js lines 137–140); the timestamp is `dparse` applied to the
captured timestamp text. -/
structure UserRequest where
  timestamp : Int
  request : List Char
deriving DecidableEq, Repr

/-- Insertion-ordered grouping map, modelling the plain-object
`userRequests` of src/script.js lines 120–143: a new user is appended at
the end, a new request is appended at the end of its user's group. -/
def addRequest (uid : List Char) (r : UserRequest) :
    List (List Char × List UserRequest) → List (List Char × List UserRequest)
  | [] => [(uid, [r])]
  | (k, rs) :: rest =>
    if k = uid then (k, rs ++ [r]) :: rest
    else (k, rs) :: addRequest uid r rest

/-- Per-line step of `analyzeUserBehavior` (src/script.js lines 126–142): a
line contributes only when both the user token and a timestamp pattern
match. -/
def lineStep (dparse : String → Int) (m : List (List Char × List UserRequest))
    (line : List Char) : List (List Char × List UserRequest) :=
  match userIdOfLine line, extractTimestampCap line with
  | some uid, some cap => addRequest uid ⟨dparse ⟨cap⟩, trimChars line⟩ m
  | _, _ => m

/-- Per-block step of `analyzeUserBehavior`: scan every line of the block. -/
def blockStep (dparse : String → Int) (m : List (List Char × List UserRequest))
    (b : List Char) : List (List Char × List UserRequest) :=
  (splitNl b).foldl (lineStep dparse) m

/-- The grouping pass of `analyzeUserBehavior` (src/script.js lines 119–143). -/
def collectRequests (dparse : String → Int) (blocks : List (List Char)) :
    List (List Char × List UserRequest) :=
  blocks.foldl (blockStep dparse) []

/-- JavaScript `Math.abs` on the (rational-modelled) numbers involved. -/
def mabs (x : ℚ) : ℚ := if x < 0 then -x else x

/-- JavaScript `Math.round`: round half toward positive infinity. -/
def mround (x : ℚ) : ℤ := Int.floor (x + 1 / 2)

/-- One entry of the user analysis (the objects pushed at
src/script.js lines 172–177, 200–208 and 210–215).  The `avgInterval`
property exists only on the objects of the middle branch, hence the
`Option`. -/
structure UserActivityRecord where
  userId : List Char
  requestCount : Nat
  isSuspicious : Bool
  reason : String
  avgInterval : Option Int
deriving DecidableEq, Repr

/-- Stable insertion into a list sorted ascending by timestamp; together
with `sortByTs` this models the stable ascending
`requests.sort((a, b) => a.timestamp - b.timestamp)` of
src/script.js line 182. -/
def insertByTs (r : UserRequest) : List UserRequest → List UserRequest
  | [] => [r]
  | x :: xs => if r.timestamp ≤ x.timestamp then r :: x :: xs else x :: insertByTs r xs

/-- Stable ascending sort by timestamp (src/script.js line 182). -/
def sortByTs : List UserRequest → List UserRequest
  | [] => []
  | x :: xs => insertByTs x (sortByTs xs)

/-- Successive differences of consecutive timestamps
(src/script.js lines 185–189). -/
def intervalsOf (rs : List UserRequest) : List Int :=
  (rs.zip (rs.drop 1)).map (fun p => p.2.timestamp - p.1.timestamp)

/-- The per-group body of `detectSuspiciousBehavior`
(src/script.js lines 170–217). -/
def analyzeGroup (uid : List Char) (requests : List UserRequest) : UserActivityRecord :=
  if requests.length < 2 then
    ⟨uid, requests.length, false, "Normal activity", none⟩
  else
    let sorted := sortByTs requests
    let intervals := intervalsOf sorted
    if intervals.length > 2 then
      let avgInterval : ℚ :=
        (intervals.foldl (fun (sum : ℚ) (i : ℤ) => sum + (i : ℚ)) 0) / (intervals.length : ℚ)
      let similarIntervals :=
        (intervals.filter (fun (i : ℤ) => decide (mabs ((i : ℚ) - avgInterval) < 2000))).length
      let isSusp :=
        decide ((similarIntervals : ℚ) / (intervals.length : ℚ) > 7 / 10 ∧ avgInterval < 15000)
      ⟨uid, requests.length, isSusp,
        if isSusp then
          "Repeated API hits every " ++ toString (mround (avgInterval / 1000)) ++ "s"
        else "Normal activity",
        some (mround (avgInterval / 1000))⟩
    else
      ⟨uid, requests.length, false, "Insufficient data", none⟩

/-- Source function `detectSuspiciousBehavior` (src/script.js lines 167–220), over the
grouping map in insertion order. -/
def detectSuspiciousBehavior (m : List (List Char × List UserRequest)) :
    List UserActivityRecord :=
  m.map (fun p => analyzeGroup p.1 p.2)

/-- Source function `analyzeUserBehavior` (src/script.js lines 119–146). -/
def analyzeUserBehavior (dparse : String → Int) (blocks : List (List Char)) :
    List UserActivityRecord :=
  detectSuspiciousBehavior (collectRequests dparse blocks)

/-- Source function `determineBreach` (src/script.js lines 222–227). -/
def determineBreach (ips : List IPRecord) (users : List UserActivityRecord) : Bool :=
  ips.any (fun ip => !ip.isInternal) || users.any (fun user => user.isSuspicious)

/-- The `stats` object of `parseLogContent` (src/script.js lines 77–83). -/
structure AnalysisStats where
  totalBlocks : Nat
  totalIPs : Nat
  internalIPs : Nat
  externalIPs : Nat
  suspiciousUsers : Nat
deriving DecidableEq, Repr

/-- The result object of `parseLogContent` (src/script.js lines 73–84). -/
structure AnalysisResult where
  ipAnalysis : List IPRecord
  userAnalysis : List UserActivityRecord
  isBreach : Bool
  stats : AnalysisStats
deriving DecidableEq, Repr

/-- Source function `parseLogContent` (src/script.js lines 67–85), the pipeline entry point,
parametrised by the date-parsing policy `dparse`. -/
def parseLogContent (dparse : String → Int) (content : String) : AnalysisResult :=
  let blocks := splitIntoBlocks content.data
  let ipAnalysis := analyzeIPs blocks
  let userAnalysis := analyzeUserBehavior dparse blocks
  let isBreach := determineBreach ipAnalysis userAnalysis
  { ipAnalysis := ipAnalysis
    userAnalysis := userAnalysis
    isBreach := isBreach
    stats :=
      { totalBlocks := blocks.length
        totalIPs := ipAnalysis.length
        internalIPs := (ipAnalysis.filter (fun ip => ip.isInternal)).length
        externalIPs := (ipAnalysis.filter (fun ip => !ip.isInternal)).length
        suspiciousUsers := (userAnalysis.filter (fun user => user.isSuspicious)).length } }

/-- The property names, in source order, of the object literal returned by
`parseLogContent` (src/script.js lines 73–84). -/
def analysisResultKeys : List String :=
  ["ipAnalysis", "userAnalysis", "isBreach", "stats"]

/-- The property names, in source order, of the nested `stats` object literal
(src/script.js lines 77–83). -/
def analysisStatsKeys : List String :=
  ["totalBlocks", "totalIPs", "internalIPs", "externalIPs", "suspiciousUsers"]

/-- Integer absolute value written as in `mabs`. -/
def mabsZ (x : ℤ) : ℤ := if x < 0 then -x else x

/-- Kernel-computable form of `analyzeGroup`: the rational comparisons of the
regularity branch are rewritten gcd-free over `ℤ` by clearing the (positive)
denominators, so that concrete runs can be checked by `decide`.
`analyzeGroup_eq_eval` proves it extensionally equal to `analyzeGroup`. -/
def analyzeGroupEval (uid : List Char) (requests : List UserRequest) : UserActivityRecord :=
  if requests.length < 2 then
    ⟨uid, requests.length, false, "Normal activity", none⟩
  else
    let intervals := intervalsOf (sortByTs requests)
    let n := intervals.length
    if n > 2 then
      let sum := intervals.foldl (fun s i => s + i) 0
      let similarIntervals :=
        (intervals.filter (fun i => decide (mabsZ (i * n - sum) < 2000 * n))).length
      let isSusp := decide (7 * n < 10 * similarIntervals ∧ sum < 15000 * n)
      let rounded := (2 * sum + 1000 * n) / (2000 * (n : ℤ))
      ⟨uid, requests.length, isSusp,
        if isSusp then "Repeated API hits every " ++ toString rounded ++ "s"
        else "Normal activity",
        some rounded⟩
    else
      ⟨uid, requests.length, false, "Insufficient data", none⟩

/-- The interval list the detector derives from a request group: successive
differences of the timestamps sorted ascending. -/
def intervalListOf (rs : List UserRequest) : List Int :=
  intervalsOf (sortByTs rs)

/-- The arithmetic mean (in ms, exact) of a group's intervals. -/
def meanIntervalOf (rs : List UserRequest) : ℚ :=
  ((intervalListOf rs).foldl (fun (s : ℚ) (i : ℤ) => s + (i : ℚ)) 0) /
    ((intervalListOf rs).length : ℚ)

/-- How many of a group's intervals lie within 2000 ms of the mean interval. -/
def similarCountOf (rs : List UserRequest) : Nat :=
  ((intervalListOf rs).filter
    (fun (i : ℤ) => decide (mabs ((i : ℚ) - meanIntervalOf rs) < 2000))).length

/-! Basic lemmas about the embedded functions. -/

theorem length_insertByTs (r : UserRequest) (l : List UserRequest) :
    (insertByTs r l).length = l.length + 1 := by
  induction l with
  | nil => rfl
  | cons x xs ih => unfold insertByTs; split <;> simp [ih]

theorem length_sortByTs (l : List UserRequest) :
    (sortByTs l).length = l.length := by
  induction l with
  | nil => rfl
  | cons x xs ih => simp [sortByTs, length_insertByTs, ih]

theorem length_intervalsOf (l : List UserRequest) :
    (intervalsOf l).length = l.length - 1 := by
  simp only [intervalsOf, List.length_map, List.length_zip, List.length_drop]
  omega

theorem length_intervalListOf (rs : List UserRequest) :
    (intervalListOf rs).length = rs.length - 1 := by
  simp [intervalListOf, length_intervalsOf, length_sortByTs]

theorem requestCount_analyzeGroup (uid : List Char) (rs : List UserRequest) :
    (analyzeGroup uid rs).requestCount = rs.length := by
  unfold analyzeGroup
  split
  · rfl
  · dsimp only
    split <;> rfl

theorem mabs_lt_iff (x c : ℚ) : mabs x < c ↔ -c < x ∧ x < c := by
  unfold mabs
  split <;> constructor
  · intro h; constructor <;> linarith
  · rintro ⟨h1, h2⟩; linarith
  · intro h; constructor <;> linarith
  · rintro ⟨h1, h2⟩; linarith

theorem mabsZ_lt_iff (x c : ℤ) : mabsZ x < c ↔ -c < x ∧ x < c := by
  unfold mabsZ
  split <;> omega

theorem foldl_ratCast (l : List ℤ) (a : ℤ) :
    List.foldl (fun (s : ℚ) (i : ℤ) => s + (i : ℚ)) (a : ℚ) l =
      ((List.foldl (fun s i => s + i) a l : ℤ) : ℚ) := by
  induction l generalizing a with
  | nil => rfl
  | cons x xs ih =>
    simp only [List.foldl_cons]
    rw [show ((a : ℚ) + (x : ℚ)) = ((a + x : ℤ) : ℚ) by push_cast; ring, ih]

theorem similar_cond_iff (i s : ℤ) (n : ℕ) (hn : 0 < n) :
    (mabs ((i : ℚ) - (s : ℚ) / (n : ℚ)) < 2000) ↔ (mabsZ (i * n - s) < 2000 * n) := by
  have hnQ : (0 : ℚ) < (n : ℚ) := by exact_mod_cast hn
  rw [mabs_lt_iff, mabsZ_lt_iff]
  have hrw : (i : ℚ) - (s : ℚ) / (n : ℚ) = ((i * (n : ℤ) - s : ℤ) : ℚ) / (n : ℚ) := by
    field_simp
  rw [hrw, div_lt_iff₀ hnQ, lt_div_iff₀ hnQ]
  constructor
  · rintro ⟨h1, h2⟩
    constructor <;> [skip; skip] <;> qify <;> push_cast at h1 h2 ⊢ <;> linarith
  · rintro ⟨h1, h2⟩
    qify at h1 h2
    constructor <;> push_cast at h1 h2 ⊢ <;> linarith

theorem ratio_iff (sim n : ℕ) (hn : 0 < n) :
    ((sim : ℚ) / (n : ℚ) > 7 / 10) ↔ 7 * n < 10 * sim := by
  have hnQ : (0 : ℚ) < (n : ℚ) := by exact_mod_cast hn
  rw [gt_iff_lt, div_lt_div_iff₀ (by norm_num) hnQ]
  constructor
  · intro h
    have h7 : (7 : ℚ) * n < 10 * sim := by linarith
    exact_mod_cast h7
  · intro h
    have h7 : (7 : ℚ) * n < 10 * sim := by exact_mod_cast h
    linarith

theorem mean_lt_iff (s : ℤ) (n : ℕ) (hn : 0 < n) :
    ((s : ℚ) / (n : ℚ) < 15000) ↔ s < 15000 * n := by
  have hnQ : (0 : ℚ) < (n : ℚ) := by exact_mod_cast hn
  rw [div_lt_iff₀ hnQ]
  constructor
  · intro h
    have h15 : (s : ℚ) < 15000 * n := by linarith
    exact_mod_cast h15
  · intro h
    have h15 : (s : ℚ) < 15000 * n := by exact_mod_cast h
    linarith

theorem mround_div_eq (s : ℤ) (n : ℕ) (hn : 0 < n) :
    mround (((s : ℚ) / (n : ℚ)) / 1000) = (2 * s + 1000 * n) / (2000 * (n : ℤ)) := by
  unfold mround
  have hn0 : (n : ℚ) ≠ 0 := by
    have : (0 : ℚ) < (n : ℚ) := by exact_mod_cast hn
    exact ne_of_gt this
  have h1 : ((s : ℚ) / (n : ℚ)) / 1000 + 1 / 2 =
      ((2 * s + 1000 * (n : ℤ) : ℤ) : ℚ) / ((2000 * n : ℕ) : ℚ) := by
    field_simp
    ring
  rw [h1, Rat.floor_intCast_div_natCast]
  push_cast
  ring_nf

theorem foldl_ratCast0 (l : List ℤ) :
    List.foldl (fun (s : ℚ) (i : ℤ) => s + (i : ℚ)) 0 l =
      ((List.foldl (fun s i => s + i) 0 l : ℤ) : ℚ) := by
  have h := foldl_ratCast l 0
  simpa using h

/-- The rational heuristic of `analyzeGroup` agrees everywhere with its
gcd-free integer form `analyzeGroupEval`. -/
theorem analyzeGroup_eq_eval (uid : List Char) (rs : List UserRequest) :
    analyzeGroup uid rs = analyzeGroupEval uid rs := by
  unfold analyzeGroup analyzeGroupEval
  by_cases h2 : rs.length < 2
  · simp only [if_pos h2]
  · simp only [if_neg h2]
    by_cases h3 : (intervalsOf (sortByTs rs)).length > 2
    · simp only [if_pos h3]
      have hn : 0 < (intervalsOf (sortByTs rs)).length := by omega
      set intervals := intervalsOf (sortByTs rs) with hI
      set n := intervals.length with hN
      set sum := List.foldl (fun s i => s + i) (0 : ℤ) intervals with hS
      have hsum : List.foldl (fun (s : ℚ) (i : ℤ) => s + (i : ℚ)) 0 intervals = (sum : ℚ) := by
        rw [hS, foldl_ratCast0]
      rw [hsum]
      have hfil :
          intervals.filter (fun (i : ℤ) => decide (mabs ((i : ℚ) - (sum : ℚ) / (n : ℚ)) < 2000)) =
            intervals.filter (fun (i : ℤ) => decide (mabsZ (i * n - sum) < 2000 * n)) := by
        apply List.filter_congr
        intro i _
        exact decide_eq_decide.mpr (similar_cond_iff i sum n hn)
      rw [hfil]
      have hsusp :
          decide
              ((((intervals.filter
                    (fun (i : ℤ) => decide (mabsZ (i * n - sum) < 2000 * n))).length : ℚ) /
                  (n : ℚ) > 7 / 10) ∧ ((sum : ℚ) / (n : ℚ) < 15000)) =
            decide
              ((7 * n <
                  10 * (intervals.filter
                    (fun (i : ℤ) => decide (mabsZ (i * n - sum) < 2000 * n))).length) ∧
                (sum < 15000 * n)) :=
        decide_eq_decide.mpr (and_congr (ratio_iff _ n hn) (mean_lt_iff sum n hn))
      rw [hsusp, mround_div_eq sum n hn]
    · simp only [if_neg h3]

theorem ipRecordOfBlock_isInternal (b : List Char) (r : IPRecord)
    (h : ipRecordOfBlock b = some r) :
    r.isInternal = "10.".data.isPrefixOf r.ip := by
  simp only [ipRecordOfBlock] at h
  revert h
  cases hm : matchIP ((splitNl b).headD []) with
  | none => intro h; exact Option.noConfusion h
  | some addr =>
    intro h
    have h2 := Option.some.inj h
    subst h2
    rfl

theorem analyzeIPsAux_pairwise (blocks : List (List Char)) (acc : List IPRecord)
    (h : acc.Pairwise (fun a b => a.ip ≠ b.ip)) :
    (analyzeIPsAux acc blocks).Pairwise (fun a b => a.ip ≠ b.ip) := by
  induction blocks generalizing acc with
  | nil => exact h
  | cons b rest ih =>
    unfold analyzeIPsAux
    cases hb : ipRecordOfBlock b with
    | none => exact ih acc h
    | some r =>
      show List.Pairwise (fun a b => a.ip ≠ b.ip)
        (if (acc.any fun x => x.ip == r.ip) = true then analyzeIPsAux acc rest
          else analyzeIPsAux (acc ++ [r]) rest)
      by_cases hdup : (acc.any fun x => x.ip == r.ip) = true
      · rw [if_pos hdup]; exact ih acc h
      · rw [if_neg hdup]
        apply ih
        rw [List.pairwise_append]
        refine ⟨h, List.pairwise_singleton _ _, ?_⟩
        intro a ha b' hb'
        simp only [List.mem_singleton] at hb'
        subst hb'
        intro heq
        exact hdup (List.any_eq_true.mpr ⟨a, ha, by simp [heq]⟩)

theorem analyzeIPsAux_isInternal (blocks : List (List Char)) (acc : List IPRecord)
    (h : ∀ r ∈ acc, r.isInternal = "10.".data.isPrefixOf r.ip) :
    ∀ r ∈ analyzeIPsAux acc blocks, r.isInternal = "10.".data.isPrefixOf r.ip := by
  induction blocks generalizing acc with
  | nil => exact h
  | cons b rest ih =>
    unfold analyzeIPsAux
    cases hb : ipRecordOfBlock b with
    | none => exact ih acc h
    | some r =>
      show ∀ x ∈
        (if (acc.any fun x => x.ip == r.ip) = true then analyzeIPsAux acc rest
          else analyzeIPsAux (acc ++ [r]) rest),
          x.isInternal = "10.".data.isPrefixOf x.ip
      by_cases hdup : (acc.any fun x => x.ip == r.ip) = true
      · rw [if_pos hdup]; exact ih acc h
      · rw [if_neg hdup]
        apply ih
        intro x hx
        rcases List.mem_append.mp hx with hx | hx
        · exact h x hx
        · simp only [List.mem_singleton] at hx
          subst hx
          exact ipRecordOfBlock_isInternal b x hb

theorem firstIPRecordFor_nil (a : List Char) : firstIPRecordFor [] a = none := rfl

theorem firstIPRecordFor_cons (b : List Char) (rest : List (List Char)) (a : List Char) :
    firstIPRecordFor (b :: rest) a =
      match ipRecordOfBlock b with
      | some r => if r.ip = a then some r else firstIPRecordFor rest a
      | none => firstIPRecordFor rest a := rfl

theorem analyzeIPsAux_subset (blocks : List (List Char)) (acc : List IPRecord) :
    ∀ x ∈ acc, x ∈ analyzeIPsAux acc blocks := by
  induction blocks generalizing acc with
  | nil => intro x hx; exact hx
  | cons b rest ih =>
    intro x hx
    unfold analyzeIPsAux
    cases hb : ipRecordOfBlock b with
    | none => exact ih acc x hx
    | some r =>
      show x ∈ (if (acc.any fun y => y.ip == r.ip) = true then analyzeIPsAux acc rest
        else analyzeIPsAux (acc ++ [r]) rest)
      by_cases hdup : (acc.any fun y => y.ip == r.ip) = true
      · rw [if_pos hdup]; exact ih acc x hx
      · rw [if_neg hdup]; exact ih (acc ++ [r]) x (by simp [hx])

theorem analyzeIPsAux_first_wins (blocks : List (List Char)) (acc : List IPRecord) :
    ∀ r ∈ analyzeIPsAux acc blocks,
      r ∈ acc ∨ ((∀ x ∈ acc, x.ip ≠ r.ip) ∧ firstIPRecordFor blocks r.ip = some r) := by
  induction blocks generalizing acc with
  | nil => intro r hr; exact Or.inl hr
  | cons b rest ih =>
    intro r hr
    unfold analyzeIPsAux at hr
    cases hb : ipRecordOfBlock b with
    | none =>
      rw [hb] at hr
      have hr' : r ∈ analyzeIPsAux acc rest := hr
      rcases ih acc r hr' with h | ⟨hne, hfirst⟩
      · exact Or.inl h
      · refine Or.inr ⟨hne, ?_⟩
        rw [firstIPRecordFor_cons, hb]
        exact hfirst
    | some r₀ =>
      rw [hb] at hr
      have hr' : r ∈ (if (acc.any fun x => x.ip == r₀.ip) = true then analyzeIPsAux acc rest
        else analyzeIPsAux (acc ++ [r₀]) rest) := hr
      by_cases hdup : (acc.any fun x => x.ip == r₀.ip) = true
      · rw [if_pos hdup] at hr'
        rcases ih acc r hr' with h | ⟨hne, hfirst⟩
        · exact Or.inl h
        · refine Or.inr ⟨hne, ?_⟩
          rw [firstIPRecordFor_cons, hb]
          show (if r₀.ip = r.ip then some r₀ else firstIPRecordFor rest r.ip) = some r
          obtain ⟨x, hx, hxip⟩ := List.any_eq_true.mp hdup
          have hx2 : x.ip = r₀.ip := by simpa using hxip
          rw [if_neg (fun heq => hne x hx (hx2.trans heq))]
          exact hfirst
      · rw [if_neg hdup] at hr'
        rcases ih (acc ++ [r₀]) r hr' with h | ⟨hne, hfirst⟩
        · rcases List.mem_append.mp h with h | h
          · exact Or.inl h
          · simp only [List.mem_singleton] at h
            subst h
            refine Or.inr ⟨?_, ?_⟩
            · intro x hx heq
              exact hdup (List.any_eq_true.mpr ⟨x, hx, by simp [heq]⟩)
            · rw [firstIPRecordFor_cons, hb]
              show (if r.ip = r.ip then some r else firstIPRecordFor rest r.ip) = some r
              rw [if_pos rfl]
        · refine Or.inr ⟨fun x hx => hne x (by simp [hx]), ?_⟩
          have hr₀ : r₀.ip ≠ r.ip := hne r₀ (by simp)
          rw [firstIPRecordFor_cons, hb]
          show (if r₀.ip = r.ip then some r₀ else firstIPRecordFor rest r.ip) = some r
          rw [if_neg hr₀]
          exact hfirst

theorem analyzeIPsAux_covers (blocks : List (List Char)) (acc : List IPRecord) :
    ∀ b ∈ blocks, ∀ r₀, ipRecordOfBlock b = some r₀ →
      ∃ r' ∈ analyzeIPsAux acc blocks, r'.ip = r₀.ip := by
  induction blocks generalizing acc with
  | nil => intro b hb; exact absurd hb (by simp)
  | cons b rest ih =>
    intro b' hb' r₀ h₀
    unfold analyzeIPsAux
    cases hb : ipRecordOfBlock b with
    | none =>
      rcases List.mem_cons.mp hb' with rfl | hmem
      · rw [hb] at h₀; exact Option.noConfusion h₀
      · exact ih acc b' hmem r₀ h₀
    | some rb =>
      show ∃ r' ∈ (if (acc.any fun x => x.ip == rb.ip) = true then analyzeIPsAux acc rest
        else analyzeIPsAux (acc ++ [rb]) rest), r'.ip = r₀.ip
      by_cases hdup : (acc.any fun x => x.ip == rb.ip) = true
      · rw [if_pos hdup]
        rcases List.mem_cons.mp hb' with rfl | hmem
        · rw [hb] at h₀
          have hrb : rb = r₀ := Option.some.inj h₀
          subst hrb
          obtain ⟨x, hx, hxip⟩ := List.any_eq_true.mp hdup
          exact ⟨x, analyzeIPsAux_subset rest acc x hx, by simpa using hxip⟩
        · exact ih acc b' hmem r₀ h₀
      · rw [if_neg hdup]
        rcases List.mem_cons.mp hb' with rfl | hmem
        · rw [hb] at h₀
          have hrb : rb = r₀ := Option.some.inj h₀
          subst hrb
          exact ⟨rb, analyzeIPsAux_subset rest (acc ++ [rb]) rb (by simp), rfl⟩
        · exact ih (acc ++ [rb]) b' hmem r₀ h₀

/-- Claim C5. The IP analysis never contains two records with the same
address, and the first occurrence wins: every record of the output is the
record created from the first block whose leading address matches (so later
blocks with the same address neither add a duplicate nor replace the
retained request lines), and every block with a leading IP is represented
(src/script.js lines 97–114). -/
theorem analyzeIPs_first_occurrence_wins (blocks : List (List Char)) :
    (analyzeIPs blocks).Pairwise (fun a b => a.ip ≠ b.ip) ∧
    (∀ r ∈ analyzeIPs blocks, firstIPRecordFor blocks r.ip = some r) ∧
    (∀ b ∈ blocks, ∀ r₀, ipRecordOfBlock b = some r₀ →
      ∃ r' ∈ analyzeIPs blocks, r'.ip = r₀.ip) := by
  refine ⟨analyzeIPsAux_pairwise blocks [] List.Pairwise.nil, ?_, ?_⟩
  · intro r hr
    rcases analyzeIPsAux_first_wins blocks [] r hr with h | ⟨_, hfirst⟩
    · exact absurd h (by simp)
    · exact hfirst
  · exact analyzeIPsAux_covers blocks []

/-- Witness for C5: with two blocks bearing the same leading address, the
record kept by the analysis is the first block's one, request lines
included. -/
theorem analyzeIPs_first_wins_witness :
    firstIPRecordFor ["10.0.0.1 x\nGET /first".data, "10.0.0.1 y\nGET /second".data]
        (IPRecord.mk "10.0.0.1".data true ["GET /first".data]).ip =
      some (IPRecord.mk "10.0.0.1".data true ["GET /first".data]) :=
  (analyzeIPs_first_occurrence_wins
      ["10.0.0.1 x\nGET /first".data, "10.0.0.1 y\nGET /second".data]).2.1
    (IPRecord.mk "10.0.0.1".data true ["GET /first".data]) (by decide)

/-- Claim C6. Every produced IPRecord is classified internal exactly when its
address string starts with the literal prefix `10.`
(src/script.js line 104); every other address, `172.16.*` and `192.168.*`
included, is external. -/
theorem isInternal_iff_starts_with_ten (blocks : List (List Char)) (r : IPRecord)
    (hr : r ∈ analyzeIPs blocks) :
    r.isInternal = "10.".data.isPrefixOf r.ip :=
  analyzeIPsAux_isInternal blocks [] (by simp) r hr

/-- Witness for C6: a `172.16.*` block is classified external. -/
theorem isInternal_witness :
    ((IPRecord.mk "172.16.0.1".data false ["GET /x".data]).isInternal =
        "10.".data.isPrefixOf "172.16.0.1".data) ∧
      "10.".data.isPrefixOf "172.16.0.1".data = false :=
  ⟨isInternal_iff_starts_with_ten ["172.16.0.1\nGET /x".data] _ (by decide), by decide⟩

/-- Claim C3 counterexample. The object returned by `parseLogContent` does not
carry the property names `ipRecords`/`userRecords` claimed by the spec. -/
theorem result_field_names_cex :
    analysisResultKeys ≠ ["ipRecords", "userRecords", "isBreach", "stats"] := by
  decide

/-- Claim C3, amended. The result object's property names are exactly
`ipAnalysis, userAnalysis, isBreach, stats`, and the nested `stats` object's
are exactly `totalBlocks, totalIPs, internalIPs, externalIPs,
suspiciousUsers`. -/
theorem result_field_names :
    analysisResultKeys = ["ipAnalysis", "userAnalysis", "isBreach", "stats"] ∧
      analysisStatsKeys =
        ["totalBlocks", "totalIPs", "internalIPs", "externalIPs", "suspiciousUsers"] :=
  ⟨rfl, rfl⟩

theorem parseLogContent_isBreach (dparse : String → Int) (content : String) :
    (parseLogContent dparse content).isBreach =
      determineBreach (analyzeIPs (splitIntoBlocks content.data))
        (analyzeUserBehavior dparse (splitIntoBlocks content.data)) := rfl

theorem parseLogContent_externalIPs (dparse : String → Int) (content : String) :
    (parseLogContent dparse content).stats.externalIPs =
      ((analyzeIPs (splitIntoBlocks content.data)).filter
        (fun ip => !ip.isInternal)).length := rfl

theorem determineBreach_iff (ips : List IPRecord) (users : List UserActivityRecord) :
    determineBreach ips users = true ↔
      ((∃ r ∈ ips, r.isInternal = false) ∨ (∃ u ∈ users, u.isSuspicious = true)) := by
  simp [determineBreach, List.any_eq_true]

/-- Claim C4. The verdict is a breach exactly when some IP record is external
or some user record is suspicious (src/script.js lines 222–227); in
particular a positive external-IP count forces a breach whatever the user
analysis finds. -/
theorem isBreach_iff_external_or_suspicious (dparse : String → Int) (content : String) :
    ((parseLogContent dparse content).isBreach = true ↔
      ((∃ r ∈ (parseLogContent dparse content).ipAnalysis, r.isInternal = false) ∨
        (∃ u ∈ (parseLogContent dparse content).userAnalysis, u.isSuspicious = true))) ∧
    (0 < (parseLogContent dparse content).stats.externalIPs →
      (parseLogContent dparse content).isBreach = true) := by
  constructor
  · exact determineBreach_iff _ _
  · intro hpos
    rw [parseLogContent_isBreach, determineBreach_iff]
    left
    have hpos' : 0 < ((analyzeIPs (splitIntoBlocks content.data)).filter
        (fun ip => !ip.isInternal)).length := hpos
    have hne := List.ne_nil_of_length_pos hpos'
    obtain ⟨r, hr⟩ := List.exists_mem_of_ne_nil _ hne
    have hr' := List.mem_filter.mp hr
    exact ⟨r, hr'.1, by simpa using hr'.2⟩

/-- Witness for C4: one external block breaches, one internal block with no
user activity does not. -/
theorem isBreach_witness :
    (parseLogContent (fun _ => 0) "8.8.8.8 hit\nGET /a").isBreach = true ∧
      (parseLogContent (fun _ => 0) "10.0.0.1 hit\nGET /a").isBreach = false :=
  ⟨(isBreach_iff_external_or_suspicious (fun _ => 0) "8.8.8.8 hit\nGET /a").2 (by decide),
    by decide⟩

theorem length_filter_split {α : Type} (p : α → Bool) (l : List α) :
    l.length = (l.filter p).length + (l.filter (fun a => !(p a))).length := by
  induction l with
  | nil => rfl
  | cons x xs ih => by_cases h : p x = true <;> simp [List.filter_cons, h] <;> omega

/-- Claim C10. The summary statistics are consistent: the unique-IP count
splits into internal plus external, the suspicious-user count is the number
of suspicious user records, and the block count is the splitter's output
length (src/script.js lines 77–83). -/
theorem stats_identities (dparse : String → Int) (content : String) :
    (parseLogContent dparse content).stats.totalIPs =
        (parseLogContent dparse content).stats.internalIPs +
          (parseLogContent dparse content).stats.externalIPs ∧
      (parseLogContent dparse content).stats.suspiciousUsers =
        ((parseLogContent dparse content).userAnalysis.filter
          (fun u => u.isSuspicious)).length ∧
      (parseLogContent dparse content).stats.totalBlocks =
        (splitIntoBlocks content.data).length := by
  refine ⟨?_, rfl, rfl⟩
  show (analyzeIPs (splitIntoBlocks content.data)).length =
    ((analyzeIPs (splitIntoBlocks content.data)).filter (fun ip => ip.isInternal)).length +
      ((analyzeIPs (splitIntoBlocks content.data)).filter (fun ip => !ip.isInternal)).length
  exact length_filter_split (fun ip => ip.isInternal) (analyzeIPs (splitIntoBlocks content.data))

theorem analyzeGroup_small (uid : List Char) (rs : List UserRequest)
    (h : rs.length < 2) :
    analyzeGroup uid rs = ⟨uid, rs.length, false, "Normal activity", none⟩ := by
  unfold analyzeGroup
  simp only [if_pos h]

theorem analyzeGroup_insufficient (uid : List Char) (rs : List UserRequest)
    (h2 : 2 ≤ rs.length) (h4 : rs.length < 4) :
    analyzeGroup uid rs = ⟨uid, rs.length, false, "Insufficient data", none⟩ := by
  have h1 : ¬rs.length < 2 := by omega
  have h3 : ¬(intervalsOf (sortByTs rs)).length > 2 := by
    rw [length_intervalsOf, length_sortByTs]; omega
  unfold analyzeGroup
  simp only [if_neg h1, if_neg h3]

theorem analyzeGroup_middle (uid : List Char) (rs : List UserRequest)
    (h : 4 ≤ rs.length) :
    analyzeGroup uid rs = ⟨uid, rs.length,
      decide ((similarCountOf rs : ℚ) / ((intervalListOf rs).length : ℚ) > 7 / 10 ∧
        meanIntervalOf rs < 15000),
      if decide ((similarCountOf rs : ℚ) / ((intervalListOf rs).length : ℚ) > 7 / 10 ∧
          meanIntervalOf rs < 15000) then
        "Repeated API hits every " ++ toString (mround (meanIntervalOf rs / 1000)) ++ "s"
      else "Normal activity",
      some (mround (meanIntervalOf rs / 1000))⟩ := by
  have h1 : ¬rs.length < 2 := by omega
  have h3 : (intervalsOf (sortByTs rs)).length > 2 := by
    rw [length_intervalsOf, length_sortByTs]; omega
  unfold analyzeGroup
  simp only [if_neg h1, if_pos h3]
  simp only [similarCountOf, meanIntervalOf, intervalListOf]

/-- Claim C1 counterexample. A group of exactly two requests gets reason
`Insufficient data` (src/script.js line 214), not `Normal activity`: with
two requests the single interval fails the `intervals.length > 2` test. -/
theorem two_request_reason_cex :
    (detectSuspiciousBehavior [("u7".data, [⟨0, "a".data⟩, ⟨500000, "b".data⟩])]).map
        (fun r => (r.requestCount, r.isSuspicious, r.reason)) =
      [(2, false, "Insufficient data")] ∧
      ("Insufficient data" : String) ≠ "Normal activity" :=
  ⟨by decide, by decide⟩

/-- Claim C1, amended. A user record built from exactly 2 requests is never
suspicious, with reason `Insufficient data` (src/script.js lines 209–216),
regardless of the interval between the two requests. -/
theorem two_request_records_not_suspicious (m : List (List Char × List UserRequest))
    (r : UserActivityRecord) (hr : r ∈ detectSuspiciousBehavior m)
    (hc : r.requestCount = 2) :
    r.isSuspicious = false ∧ r.reason = "Insufficient data" := by
  unfold detectSuspiciousBehavior at hr
  obtain ⟨p, hmem, rfl⟩ := List.mem_map.mp hr
  have hrc := requestCount_analyzeGroup p.1 p.2
  have hlen : p.2.length = 2 := by omega
  rw [analyzeGroup_insufficient p.1 p.2 (by omega) (by omega)]
  exact ⟨rfl, rfl⟩

/-- Witness for C1: a concrete 2-request group, 500 s apart. -/
theorem two_request_records_witness :
    (analyzeGroup "u7".data [⟨0, "a".data⟩, ⟨500000, "b".data⟩]).isSuspicious = false ∧
      (analyzeGroup "u7".data [⟨0, "a".data⟩, ⟨500000, "b".data⟩]).reason =
        "Insufficient data" :=
  two_request_records_not_suspicious
    [("u7".data, [⟨0, "a".data⟩, ⟨500000, "b".data⟩])]
    (analyzeGroup "u7".data [⟨0, "a".data⟩, ⟨500000, "b".data⟩])
    (by simp [detectSuspiciousBehavior])
    (by rw [analyzeGroup_eq_eval]; decide)

/-- Claim C2 counterexample. A 3-request group (2 intervals) does not reach the
regularity branch, so its record has no `avgInterval` value although 3
requests were available: the claimed `≥ 3` presence threshold is wrong. -/
theorem avgInterval_three_requests_cex :
    ¬(∀ r ∈ detectSuspiciousBehavior
          [("u3".data, [⟨0, "a".data⟩, ⟨5000, "b".data⟩, ⟨10000, "c".data⟩])],
        (r.avgInterval.isSome = true ↔ 3 ≤ r.requestCount)) := by
  decide

/-- Claim C2, amended. The `avgInterval` field (the source's name for the
reported value, src/script.js line 207) is present iff the group has at
least 4 requests, i.e. more than 2 intervals; whenever the regularity
branch executes it reports `round(mean / 1000)`. -/
theorem avgInterval_iff_four_requests (uid : List Char) (rs : List UserRequest) :
    ((analyzeGroup uid rs).avgInterval.isSome = true ↔
      4 ≤ (analyzeGroup uid rs).requestCount) ∧
    (4 ≤ rs.length →
      (analyzeGroup uid rs).avgInterval = some (mround (meanIntervalOf rs / 1000))) := by
  rw [requestCount_analyzeGroup uid rs]
  by_cases h4 : 4 ≤ rs.length
  · rw [analyzeGroup_middle uid rs h4]
    exact ⟨by simp [h4], fun _ => rfl⟩
  · have hn : (analyzeGroup uid rs).avgInterval = none := by
      by_cases h2 : rs.length < 2
      · rw [analyzeGroup_small uid rs h2]
      · rw [analyzeGroup_insufficient uid rs (by omega) (by omega)]
    rw [hn]
    exact ⟨by simp [h4], fun hcon => absurd hcon h4⟩

/-- Witness for C2: a 4-request group carries the rounded mean interval. -/
theorem avgInterval_witness :
    (analyzeGroup "u4".data
        [⟨0, "a".data⟩, ⟨5000, "b".data⟩, ⟨10000, "c".data⟩, ⟨15000, "d".data⟩]).avgInterval =
      some (mround (meanIntervalOf
        [⟨0, "a".data⟩, ⟨5000, "b".data⟩, ⟨10000, "c".data⟩, ⟨15000, "d".data⟩] / 1000)) :=
  (avgInterval_iff_four_requests "u4".data
    [⟨0, "a".data⟩, ⟨5000, "b".data⟩, ⟨10000, "c".data⟩, ⟨15000, "d".data⟩]).2 (by decide)

/-- Claim C7. On the regularity branch (interval count > 2) a record is
suspicious exactly when the fraction of intervals within 2000 ms of the mean
exceeds 0.7 and the mean is below 15000 ms, and the reason reports the
rounded mean on suspicion and `Normal activity` otherwise
(src/script.js lines 192–208). -/
theorem regularity_branch_suspicious_iff (uid : List Char) (rs : List UserRequest)
    (h : 2 < (intervalListOf rs).length) :
    ((analyzeGroup uid rs).isSuspicious = true ↔
      ((similarCountOf rs : ℚ) / ((intervalListOf rs).length : ℚ) > 7 / 10 ∧
        meanIntervalOf rs < 15000)) ∧
    (analyzeGroup uid rs).reason =
      (if (analyzeGroup uid rs).isSuspicious then
        "Repeated API hits every " ++ toString (mround (meanIntervalOf rs / 1000)) ++ "s"
      else "Normal activity") := by
  have h4 : 4 ≤ rs.length := by
    have := length_intervalListOf rs; omega
  rw [analyzeGroup_middle uid rs h4]
  exact ⟨⟨of_decide_eq_true, fun hp => decide_eq_true hp⟩, rfl⟩

/-- Witness for C7: 4 requests at 0 s, 5 s, 10 s, 15 s are flagged with a
reason naming the 5-second cadence. -/
theorem regularity_witness :
    (analyzeGroup "ua".data
        [⟨0, "a".data⟩, ⟨5000, "b".data⟩, ⟨10000, "c".data⟩, ⟨15000, "d".data⟩]).isSuspicious
        = true ∧
      (analyzeGroup "ua".data
        [⟨0, "a".data⟩, ⟨5000, "b".data⟩, ⟨10000, "c".data⟩, ⟨15000, "d".data⟩]).reason =
        "Repeated API hits every 5s" := by
  have h := regularity_branch_suspicious_iff "ua".data
    [⟨0, "a".data⟩, ⟨5000, "b".data⟩, ⟨10000, "c".data⟩, ⟨15000, "d".data⟩] (by decide)
  have heval : (analyzeGroup "ua".data
      [⟨0, "a".data⟩, ⟨5000, "b".data⟩, ⟨10000, "c".data⟩, ⟨15000, "d".data⟩]).isSuspicious
      = true := by
    rw [analyzeGroup_eq_eval]; decide
  exact ⟨h.1.mpr (h.1.mp heval), by rw [analyzeGroup_eq_eval]; decide⟩

theorem ipRecordOfBlock_eq_none (b : List Char)
    (h : matchIP ((splitNl b).headD []) = none) : ipRecordOfBlock b = none := by
  simp only [ipRecordOfBlock, h]

theorem analyzeIPsAux_no_ip (blocks : List (List Char)) (acc : List IPRecord)
    (h : ∀ b ∈ blocks, ipRecordOfBlock b = none) :
    analyzeIPsAux acc blocks = acc := by
  induction blocks with
  | nil => rfl
  | cons b rest ih =>
    unfold analyzeIPsAux
    rw [h b (by simp)]
    exact ih (fun b' hb' => h b' (by simp [hb']))

theorem lineStep_no_match (dparse : String → Int)
    (m : List (List Char × List UserRequest)) (line : List Char)
    (h : userIdOfLine line = none ∨ extractTimestampCap line = none) :
    lineStep dparse m line = m := by
  unfold lineStep
  rcases h with h | h
  · rw [h]
  · rw [h]
    cases userIdOfLine line <;> rfl

theorem foldl_lineStep_no_match (dparse : String → Int) (lines : List (List Char))
    (m : List (List Char × List UserRequest))
    (h : ∀ line ∈ lines, userIdOfLine line = none ∨ extractTimestampCap line = none) :
    lines.foldl (lineStep dparse) m = m := by
  induction lines generalizing m with
  | nil => rfl
  | cons l rest ih =>
    rw [List.foldl_cons, lineStep_no_match dparse m l (h l (by simp))]
    exact ih m (fun l' hl' => h l' (by simp [hl']))

theorem foldl_blockStep_no_match (dparse : String → Int) (blocks : List (List Char))
    (m : List (List Char × List UserRequest))
    (h : ∀ b ∈ blocks, ∀ line ∈ splitNl b,
      userIdOfLine line = none ∨ extractTimestampCap line = none) :
    blocks.foldl (blockStep dparse) m = m := by
  induction blocks generalizing m with
  | nil => rfl
  | cons b rest ih =>
    rw [List.foldl_cons,
      show blockStep dparse m b = m from
        foldl_lineStep_no_match dparse (splitNl b) m (h b (by simp))]
    exact ih m (fun b' hb' => h b' (by simp [hb']))

/-- Claim C9. Absent patterns are not failures: a block whose first line has no
leading IP contributes no IP record, and a line missing the user token or a
timestamp contributes no user activity, so such inputs just yield empty
records; the embedded pipeline is total by construction
(src/script.js lines 67–85). -/
theorem absent_patterns_yield_empty_records (dparse : String → Int) (content : String) :
    ((∀ b ∈ splitIntoBlocks content.data, matchIP ((splitNl b).headD []) = none) →
      (parseLogContent dparse content).ipAnalysis = []) ∧
    ((∀ b ∈ splitIntoBlocks content.data, ∀ line ∈ splitNl b,
        userIdOfLine line = none ∨ extractTimestampCap line = none) →
      (parseLogContent dparse content).userAnalysis = []) := by
  constructor
  · intro h
    show analyzeIPs (splitIntoBlocks content.data) = []
    exact analyzeIPsAux_no_ip _ [] (fun b hb => ipRecordOfBlock_eq_none b (h b hb))
  · intro h
    show analyzeUserBehavior dparse (splitIntoBlocks content.data) = []
    unfold analyzeUserBehavior
    rw [show collectRequests dparse (splitIntoBlocks content.data) = [] from
      foldl_blockStep_no_match dparse _ [] h]
    rfl

/-- Witness for C9: prose with no IPs, user tokens or timestamps analyzes to
empty record sets. -/
theorem absent_patterns_witness :
    (parseLogContent (fun _ => 0) "hello world\nsecond line").ipAnalysis = [] ∧
      (parseLogContent (fun _ => 0) "hello world\nsecond line").userAnalysis = [] :=
  ⟨(absent_patterns_yield_empty_records (fun _ => 0) "hello world\nsecond line").1
      (by decide),
    (absent_patterns_yield_empty_records (fun _ => 0) "hello world\nsecond line").2
      (by decide)⟩

theorem matchSep_nil : matchSep [] = none := rfl

theorem rawSplitAux_zero (acc s : List Char) : rawSplitAux 0 acc s = [acc.reverse] := rfl

theorem rawSplitAux_succ (fuel : Nat) (acc s : List Char) :
    rawSplitAux (fuel + 1) acc s =
      match matchSep s with
      | some len => acc.reverse :: rawSplitAux fuel [] (s.drop len)
      | none =>
        match s with
        | [] => [acc.reverse]
        | c :: rest => rawSplitAux fuel (c :: acc) rest := rfl

theorem hasSep_cons_false {c : Char} {rest : List Char}
    (h : hasSep (c :: rest) = false) :
    matchSep (c :: rest) = none ∧ hasSep rest = false := by
  simp only [hasSep] at h
  cases hm : matchSep (c :: rest) with
  | none =>
    rw [hm] at h
    simp only [Option.isSome_none, Bool.false_or] at h
    exact ⟨rfl, h⟩
  | some len =>
    rw [hm] at h
    simp at h

theorem rawSplitAux_no_sep (fuel : Nat) (acc s : List Char)
    (hs : hasSep s = false) (hf : s.length ≤ fuel) :
    rawSplitAux fuel acc s = [acc.reverse ++ s] := by
  induction fuel generalizing acc s with
  | zero =>
    cases s with
    | nil =>
      show [acc.reverse] = [acc.reverse ++ []]
      simp
    | cons c rest => simp at hf
  | succ fuel ih =>
    cases s with
    | nil =>
      show [acc.reverse] = [acc.reverse ++ []]
      simp
    | cons c rest =>
      obtain ⟨hm, hrest⟩ := hasSep_cons_false hs
      rw [rawSplitAux_succ, hm]
      show rawSplitAux fuel (c :: acc) rest = [acc.reverse ++ c :: rest]
      rw [ih (c :: acc) rest hrest (by simp only [List.length_cons] at hf; omega)]
      simp

theorem rawSplit_no_sep (content : List Char) (h : hasSep content = false) :
    rawSplit content = [content] := by
  unfold rawSplit
  rw [rawSplitAux_no_sep content.length [] content h le_rfl]
  simp

theorem rawSplitAux_all_ws (fuel : Nat) (acc s : List Char)
    (hs : ∀ c ∈ s, isJsWS c = true) (hacc : ∀ c ∈ acc, isJsWS c = true) :
    ∀ piece ∈ rawSplitAux fuel acc s, ∀ c ∈ piece, isJsWS c = true := by
  induction fuel generalizing acc s with
  | zero =>
    intro piece hp
    simp only [rawSplitAux, List.mem_singleton] at hp
    subst hp
    intro c hc
    exact hacc c (List.mem_reverse.mp hc)
  | succ fuel ih =>
    intro piece hp
    rw [rawSplitAux_succ] at hp
    rcases s with _ | ⟨d, tl⟩
    · rw [matchSep_nil] at hp
      have hp' : piece ∈ [acc.reverse] := hp
      simp only [List.mem_singleton] at hp'
      subst hp'
      intro c hc; exact hacc c (List.mem_reverse.mp hc)
    · cases hm : matchSep (d :: tl) with
      | some len =>
        rw [hm] at hp
        have hp' : piece ∈ acc.reverse :: rawSplitAux fuel [] ((d :: tl).drop len) := hp
        rcases List.mem_cons.mp hp' with hq | hq
        · subst hq; intro c hc; exact hacc c (List.mem_reverse.mp hc)
        · exact ih [] ((d :: tl).drop len)
            (fun c hc => hs c (List.drop_subset _ _ hc)) (by simp) piece hq
      | none =>
        rw [hm] at hp
        have hp' : piece ∈ rawSplitAux fuel (d :: acc) tl := hp
        refine ih (d :: acc) tl (fun x hx => hs x (by simp [hx])) ?_ piece hp'
        intro x hx
        rcases List.mem_cons.mp hx with hx | hx
        · subst hx; exact hs x (by simp)
        · exact hacc x hx

theorem trimChars_eq_nil (s : List Char) (h : ∀ c ∈ s, isJsWS c = true) :
    trimChars s = [] := by
  unfold trimChars
  rw [List.dropWhile_eq_nil_iff.mpr h]
  rfl

theorem splitIntoBlocks_all_ws (content : List Char)
    (h : ∀ c ∈ content, isJsWS c = true) :
    splitIntoBlocks content = [] := by
  unfold splitIntoBlocks
  rw [List.filter_eq_nil_iff]
  intro b hb
  obtain ⟨piece, hpiece, rfl⟩ := List.mem_map.mp hb
  have ht : trimChars piece = [] :=
    trimChars_eq_nil piece
      (rawSplitAux_all_ws content.length [] content h (by simp) piece hpiece)
  simp [ht]

/-- Claim C8. Input with no blank-line separator splits into exactly one block
(zero when it trims to nothing); all-whitespace input yields no blocks; and
the empty input analyzes to the all-empty result with a safe verdict
(src/script.js lines 87–91 and 67–85). -/
theorem splitter_single_block_and_empty (dparse : String → Int) (content : String) :
    (hasSep content.data = false →
      (splitIntoBlocks content.data).length =
        if trimChars content.data = [] then 0 else 1) ∧
    ((∀ c ∈ content.data, isJsWS c = true) → splitIntoBlocks content.data = []) ∧
    (content = "" →
      parseLogContent dparse content = ⟨[], [], false, ⟨0, 0, 0, 0, 0⟩⟩) := by
  refine ⟨?_, fun h => splitIntoBlocks_all_ws content.data h, ?_⟩
  · intro h
    unfold splitIntoBlocks
    rw [rawSplit_no_sep content.data h]
    by_cases ht : trimChars content.data = []
    · simp [ht]
    · simp [ht, List.length_pos]
  · rintro rfl
    rfl

/-- Witness for C8: one separator-free block, an all-whitespace input (with
a separator), and the empty input. -/
theorem splitter_witness :
    ((splitIntoBlocks "a".data).length = if trimChars "a".data = [] then 0 else 1) ∧
      splitIntoBlocks " \n \n ".data = [] ∧
      parseLogContent (fun _ => 0) "" = ⟨[], [], false, ⟨0, 0, 0, 0, 0⟩⟩ :=
  ⟨(splitter_single_block_and_empty (fun _ => 0) "a").1 (by decide),
    (splitter_single_block_and_empty (fun _ => 0) " \n \n ").2.1 (by decide),
    (splitter_single_block_and_empty (fun _ => 0) "").2.2 rfl⟩

end LogAnalyzer
